import Mathlib

/-!
# Verification of the inventory search and ranking engine

Shallow embedding of the hybrid keyword + semantic search helper
(`InventorySearch` in `inventory_search.py`) together with the
token-normalization helpers used by the inventory listing endpoint
(`normalize_word` in `main.py`).

Modelling conventions:
* Python floats are modelled as real numbers (`ℝ`).
* The external catalog store is modelled by passing the snapshot of
  inventory rows (`List Item`) as an argument to `search`.
* The external embedding provider (`client.embeddings.create`) is modelled
  as a function argument `embed : List String → List (List ℝ)` mapping the
  batch of input texts to the batch of returned vectors.
* The external RapidFuzz similarity `fuzz.ratio` is modelled as a function
  argument `sim : String → String → ℝ`; the library contract (scores on the
  0–100 scale) appears as an explicit hypothesis where it is needed.
* Python strings are modelled over their character lists.  The regex `\w`
  class is modelled by the ASCII word characters `[A-Za-z0-9_]` together
  with the Unicode letter `İ` (U+0130); combining marks such as U+0307 are
  not word characters, exactly as in Python's `re` (where `\w` means
  alphanumeric-or-underscore and marks are not alphanumeric).  `str.lower`
  on the ranker's tokens is modelled by `pyLower`: the ASCII case mapping
  plus Unicode's one special one-to-many mapping relevant here,
  `İ → i + U+0307` (SpecialCasing.txt), which Python's full `str.lower`
  performs.  Other non-ASCII letters (which decide no claim) are treated as
  non-word and case-fixed.  `normalize_word` in `main.py` is applied by its
  caller to ASCII words, and is modelled with the ASCII case map alone.
-/

/-- Model of the regex character class `\w` used by
`re.findall(r"\w+", text)`: the ASCII letters, digits and underscore,
together with the Unicode letter `İ` (U+0130, a `\w` character in Python).
The combining mark U+0307 produced by lowercasing `İ` is NOT a word
character (Python's `\w` requires alphanumeric-or-underscore, and
combining marks are not alphanumeric). -/
def isWordChar (c : Char) : Bool :=
  decide ((65 ≤ c.toNat ∧ c.toNat ≤ 90) ∨ (97 ≤ c.toNat ∧ c.toNat ≤ 122) ∨
    (48 ≤ c.toNat ∧ c.toNat ≤ 57) ∨ c.toNat = 95 ∨ c.toNat = 304)

/-- `re.findall(r"\w+", text)`: the maximal runs of word characters of a
character list, in order. -/
def splitRuns : List Char → List (List Char)
  | [] => []
  | c :: cs =>
    if isWordChar c then
      (c :: cs.takeWhile isWordChar) :: splitRuns (cs.dropWhile isWordChar)
    else
      splitRuns cs
termination_by l => l.length
decreasing_by
  · have h := (List.dropWhile_sublist (l := cs) isWordChar).length_le
    simp only [List.length_cons]
    omega
  · simp only [List.length_cons]
    omega

/-- One character of Python's full `str.lower()`: the ASCII case mapping,
except for `İ` (U+0130), whose Unicode lowercase is the two-character
sequence `i` + U+0307 (combining dot above) — the one one-to-many special
casing relevant to the tokenizer. -/
def pyLowerChar (c : Char) : List Char :=
  if c.toNat = 304 then ['i', '\u0307'] else [Char.toLower c]

/-- Python's `str.lower()` on a token, character by character (full case
mapping, so the result can be longer than the input). -/
def pyLower (l : List Char) : List Char :=
  l.flatMap pyLowerChar

/-- `InventorySearch._normalize_tokens`: extract the `\w+` runs of the text,
lowercase each, drop empty ones, and collect them into a set. -/
def normalizeTokens (s : String) : Finset String :=
  (((splitRuns s.data).filter (fun r => !r.isEmpty)).map
    (fun r => String.mk (pyLower r))).toFinset

/-- Character-list version of Python's `" ".join`. -/
def joinSpaceData : List (List Char) → List Char
  | [] => []
  | [w] => w
  | w :: ws => w ++ ' ' :: joinSpaceData ws

/-- Python's `" ".join` on strings. -/
def joinSpace (ws : List String) : String :=
  String.mk (joinSpaceData (ws.map String.data))

/-- Python's `str.strip()`: remove leading and trailing whitespace. -/
def pyStrip (s : String) : String :=
  String.mk (((s.data.dropWhile Char.isWhitespace).reverse.dropWhile
    Char.isWhitespace).reverse)

/-- A catalog row, as read from the `inventory` table: the fields consumed
by the ranker (`id` is already stringified; missing fields are the empty
string, matching the `getattr(item, _, "") or ""` reads). -/
structure Item where
  id : String
  name : String
  description : String
  category : String
deriving DecidableEq

/-- `InventorySearch._item_text`: join the non-empty fields of the item
with single spaces and strip the result. -/
def itemText (it : Item) : String :=
  pyStrip (joinSpace ([it.id, it.name, it.description, it.category].filter
    (fun p => p != "")))

/-- Sum of squares of a vector's entries (`na`/`nb` in
`_cosine_similarity`); zero exactly when the vector has zero magnitude. -/
noncomputable def sumSq (l : List ℝ) : ℝ :=
  (l.map (fun x => x * x)).sum

/-- Dot product of the zipped entries of two vectors (`dot` in
`_cosine_similarity`; `zip` truncates to the shorter list). -/
noncomputable def dotList (a b : List ℝ) : ℝ :=
  ((a.zip b).map (fun p => p.1 * p.2)).sum

open Classical in
/-- `InventorySearch._cosine_similarity`: guarded cosine similarity of two
embedding vectors. -/
noncomputable def cosineSim (a b : List ℝ) : ℝ :=
  if a = [] ∨ b = [] ∨ a.length ≠ b.length then 0
  else if sumSq a = 0 ∨ sumSq b = 0 then 0
  else dotList a b / (Real.sqrt (sumSq a) * Real.sqrt (sumSq b))

/-- The inner loop of `_fuzzy_token_score`: best similarity of one query
token against all item tokens, starting from `0.0` and keeping the larger
score (a fold of `max` over the set). -/
noncomputable def bestSim (sim : String → String → ℝ) (q : String)
    (t : Finset String) : ℝ :=
  t.fold max 0 (sim q)

/-- `InventorySearch._fuzzy_token_score`: average, over the query tokens, of
the best pairwise similarity against the item tokens, normalized by the
0–100 scale; `0.0` when either token set is empty. -/
noncomputable def fuzzyScore (sim : String → String → ℝ)
    (queryTokens itemTokens : Finset String) : ℝ :=
  if queryTokens = ∅ ∨ itemTokens = ∅ then 0
  else (∑ q ∈ queryTokens, bestSim sim q itemTokens) /
    (100 * queryTokens.card)

/-- The exact token-overlap score used in `search`:
`len(query_tokens & item_tokens) / len(query_tokens)`, and `0.0` for an
empty query token set. -/
noncomputable def exactScore (queryTokens itemTokens : Finset String) : ℝ :=
  if queryTokens = ∅ then 0
  else ((queryTokens ∩ itemTokens).card : ℝ) / (queryTokens.card : ℝ)

/-- One scored search result (the per-item dict built by `search`). -/
structure ScoredResult where
  item : Item
  semantic_score : ℝ
  keyword_score : ℝ
  combined_score : ℝ

/-- The per-item scoring performed inside the loop of
`InventorySearch.search` (lines 160–202 of `inventory_search.py`). -/
noncomputable def scoreItem (sim : String → String → ℝ)
    (queryTokens : Finset String) (queryVec : List ℝ)
    (it : Item) (itemVec : List ℝ) : ScoredResult :=
  let itemTokens := normalizeTokens (itemText it)
  let categoryTokens := normalizeTokens it.category
  let semantic := cosineSim queryVec itemVec
  let keyword := max (exactScore queryTokens itemTokens)
    (fuzzyScore sim queryTokens itemTokens)
  let categoryScore := max (exactScore queryTokens categoryTokens)
    (fuzzyScore sim queryTokens categoryTokens)
  { item := it
    semantic_score := semantic
    keyword_score := keyword
    combined_score := 0.3 * semantic + 0.4 * keyword + 0.3 * categoryScore }

/-- The descending comparison used by `results.sort(key=..., reverse=True)`. -/
def byCombinedDesc (a b : ScoredResult) : Prop :=
  b.combined_score ≤ a.combined_score

noncomputable instance : DecidableRel byCombinedDesc :=
  fun _ _ => Classical.propDecidable _

instance : IsTotal ScoredResult byCombinedDesc :=
  ⟨fun a b => le_total b.combined_score a.combined_score⟩

instance : IsTrans ScoredResult byCombinedDesc :=
  ⟨fun _ _ _ h h' => le_trans h' h⟩

open Classical in
/-- Scoring, relevance filtering and sorting of the catalog items, given
the query token set, the query vector and the per-item vectors (the body of
`search` after the embedding call). -/
noncomputable def rankResults (sim : String → String → ℝ)
    (queryTokens : Finset String) (queryVec : List ℝ)
    (items : List Item) (itemVecs : List (List ℝ)) : List ScoredResult :=
  (((items.zip itemVecs).map
      (fun p => scoreItem sim queryTokens queryVec p.1 p.2)).filter
    (fun r => decide ((0.3 : ℝ) < r.combined_score))).insertionSort
    byCombinedDesc

/-- `InventorySearch.search`: trim the query, return `[]` on an empty query
or an empty catalog snapshot, otherwise embed `[query] + item_texts` in one
batch, score every item, keep the results above the `0.3` relevance cutoff,
sort them by descending combined score and truncate to `top_k` when it is a
positive integer (`top_k` defaults to `20`). -/
noncomputable def search (sim : String → String → ℝ)
    (embed : List String → List (List ℝ)) (query : String)
    (items : List Item) (top_k : Option ℤ := some 20) : List ScoredResult :=
  let q := pyStrip query
  if q = "" then []
  else if items = [] then []
  else
    let itemTexts := items.map itemText
    let vectors := embed (q :: itemTexts)
    let queryVec := vectors.headD []
    let itemVecs := vectors.drop 1
    let sorted := rankResults sim (normalizeTokens q) queryVec items itemVecs
    match top_k with
    | some k => if 0 < k then sorted.take k.toNat else sorted
    | none => sorted

/-- `normalize_word` from `main.py` (the listing-endpoint tokenizer
variant): lowercase, then strip a trailing `"es"` (length > 3), else a
trailing `"s"` (length > 3). -/
def normalize_word (w : String) : String :=
  let lw : List Char := w.data.map Char.toLower
  if 3 < lw.length ∧ (['e', 's'].isSuffixOf lw) = true then
    String.mk (lw.take (lw.length - 2))
  else if 3 < lw.length ∧ (['s'].isSuffixOf lw) = true then
    String.mk (lw.take (lw.length - 1))
  else
    String.mk lw

/-! ## Basic facts about the embedded definitions -/

theorem sumSq_nonneg (l : List ℝ) : 0 ≤ sumSq l := by
  apply List.sum_nonneg
  intro x hx
  rw [List.mem_map] at hx
  obtain ⟨y, -, rfl⟩ := hx
  exact mul_self_nonneg y

theorem dotList_self (v : List ℝ) : dotList v v = sumSq v := by
  induction v with
  | nil => simp [dotList, sumSq]
  | cons x v ih =>
    simp only [dotList, sumSq, List.zip_cons_cons, List.map_cons,
      List.sum_cons] at ih ⊢
    rw [ih]

theorem cosineSim_guard_zero (a b : List ℝ)
    (h : a = [] ∨ b = [] ∨ a.length ≠ b.length ∨ sumSq a = 0 ∨ sumSq b = 0) :
    cosineSim a b = 0 := by
  unfold cosineSim
  split_ifs with h1 h2
  · rfl
  · rfl
  · push_neg at h1 h2
    rcases h with h | h | h | h | h
    · exact absurd h h1.1
    · exact absurd h h1.2.1
    · exact absurd h1.2.2 h
    · exact absurd h h2.1
    · exact absurd h h2.2

theorem search_of_strip_empty (sim : String → String → ℝ)
    (embed : List String → List (List ℝ)) (query : String)
    (items : List Item) (top_k : Option ℤ) (h : pyStrip query = "") :
    search sim embed query items top_k = [] := by
  simp [search, h]

theorem search_of_items_empty (sim : String → String → ℝ)
    (embed : List String → List (List ℝ)) (query : String)
    (top_k : Option ℤ) :
    search sim embed query [] top_k = [] := by
  simp [search]

theorem search_main_some (sim : String → String → ℝ)
    (embed : List String → List (List ℝ)) (query : String)
    (items : List Item) (k : ℤ) (hq : pyStrip query ≠ "")
    (hi : items ≠ []) :
    search sim embed query items (some k) =
      (if 0 < k then
        (rankResults sim (normalizeTokens (pyStrip query))
          ((embed (pyStrip query :: items.map itemText)).headD [])
          items ((embed (pyStrip query :: items.map itemText)).drop 1)).take
          k.toNat
       else
        rankResults sim (normalizeTokens (pyStrip query))
          ((embed (pyStrip query :: items.map itemText)).headD [])
          items ((embed (pyStrip query :: items.map itemText)).drop 1)) := by
  simp [search, hq, hi]

theorem search_main_none (sim : String → String → ℝ)
    (embed : List String → List (List ℝ)) (query : String)
    (items : List Item) (hq : pyStrip query ≠ "") (hi : items ≠ []) :
    search sim embed query items none =
      rankResults sim (normalizeTokens (pyStrip query))
        ((embed (pyStrip query :: items.map itemText)).headD [])
        items ((embed (pyStrip query :: items.map itemText)).drop 1) := by
  simp [search, hq, hi]

/-! ## C4: empty query or empty catalog short-circuits -/

/-- C4: if the whitespace-stripped query is empty or the catalog snapshot is
empty, `search` returns `[]`, and the result does not depend on the
embedding provider at all (no embedding call is observable). -/
theorem c4_empty_inputs_return_nil (sim : String → String → ℝ)
    (embed : List String → List (List ℝ)) (query : String)
    (items : List Item) (top_k : Option ℤ)
    (h : pyStrip query = "" ∨ items = []) :
    search sim embed query items top_k = [] ∧
      ∀ embed₂ : List String → List (List ℝ),
        search sim embed query items top_k =
          search sim embed₂ query items top_k := by
  rcases h with h | h
  · exact ⟨search_of_strip_empty _ _ _ _ _ h, fun e₂ => by
      rw [search_of_strip_empty _ _ _ _ _ h, search_of_strip_empty _ _ _ _ _ h]⟩
  · subst h
    exact ⟨search_of_items_empty _ _ _ _, fun e₂ => by
      rw [search_of_items_empty, search_of_items_empty]⟩

/-- Witness for C4 at concrete inputs: a whitespace-only query with a
non-empty catalog returns `[]`. -/
theorem c4_witness :
    search (fun _ _ => 0) (fun l => l.map (fun _ => [1]))
      "   " [⟨"1", "Oak Chair", "solid oak dining chair", "Living Room"⟩]
      (some 20) = [] :=
  (c4_empty_inputs_return_nil _ _ _ _ _ (Or.inl (by decide))).1

/-! ## C6: cosine similarity guards -/

/-- C6: `cosine_similarity` returns `0.0` whenever a vector is empty, the
lengths differ, or a vector has zero magnitude (zero sum of squares); in
particular an item whose embedding vector is empty is scored with
`semantic_score = 0` instead of failing the search. -/
theorem c6_cosine_guards :
    (∀ a b : List ℝ,
      (a = [] ∨ b = [] ∨ a.length ≠ b.length ∨ sumSq a = 0 ∨ sumSq b = 0) →
        cosineSim a b = 0) ∧
    (∀ (sim : String → String → ℝ) (queryTokens : Finset String)
      (queryVec : List ℝ) (it : Item),
        (scoreItem sim queryTokens queryVec it []).semantic_score = 0) := by
  refine ⟨cosineSim_guard_zero, ?_⟩
  intro sim qT qv it
  show cosineSim qv [] = 0
  exact cosineSim_guard_zero _ _ (Or.inr (Or.inl rfl))

/-- Witness for C6 at a concrete input: mismatched lengths give `0`. -/
theorem c6_witness : cosineSim [1] [1, 2] = 0 :=
  c6_cosine_guards.1 [1] [1, 2] (Or.inr (Or.inr (Or.inl (by simp))))

/-! ## C7: self-similarity of a non-zero vector is 1 -/

/-- C7: for every vector with some non-zero component,
`cosine_similarity(v, v) = 1` (exactly, in the real-number model of
floating point). -/
theorem c7_cosine_self_eq_one (v : List ℝ) (h : ∃ x ∈ v, x ≠ 0) :
    cosineSim v v = 1 := by
  obtain ⟨x, hx, hx0⟩ := h
  have hv : v ≠ [] := by rintro rfl; simp at hx
  have hxx : x * x ≤ sumSq v := by
    apply List.single_le_sum (l := v.map fun y => y * y)
    · intro y hy
      rw [List.mem_map] at hy
      obtain ⟨z, -, rfl⟩ := hy
      exact mul_self_nonneg z
    · exact List.mem_map_of_mem _ hx
  have hS : 0 < sumSq v := lt_of_lt_of_le (mul_self_pos.mpr hx0) hxx
  unfold cosineSim
  rw [if_neg, if_neg]
  · rw [dotList_self, Real.mul_self_sqrt hS.le, div_self (ne_of_gt hS)]
  · push_neg
    exact ⟨ne_of_gt hS, ne_of_gt hS⟩
  · push_neg
    exact ⟨hv, hv, rfl⟩

/-- Witness for C7 at a concrete input: `v = [2]`. -/
theorem c7_witness : cosineSim [2] [2] = 1 :=
  c7_cosine_self_eq_one [2] ⟨2, by simp, by norm_num⟩

/-! ## C10: the default result cap is 20 -/

/-- C10: calling `search` without a `top_k` argument uses the default
`top_k = 20`, so the result list never has more than 20 entries. -/
theorem c10_default_top_k_is_20 (sim : String → String → ℝ)
    (embed : List String → List (List ℝ)) (query : String)
    (items : List Item) :
    search sim embed query items = search sim embed query items (some 20) ∧
      (search sim embed query items).length ≤ 20 := by
  refine ⟨rfl, ?_⟩
  by_cases hq : pyStrip query = ""
  · rw [search_of_strip_empty _ _ _ _ _ hq]; simp
  by_cases hi : items = []
  · subst hi; rw [search_of_items_empty]; simp
  rw [search_main_some _ _ _ _ _ hq hi, if_pos (by norm_num)]
  have h := List.length_take_le ((20 : ℤ)).toNat
    (rankResults sim (normalizeTokens (pyStrip query))
      ((embed (pyStrip query :: items.map itemText)).headD [])
      items ((embed (pyStrip query :: items.map itemText)).drop 1))
  exact le_trans h (by norm_num)

/-! ## Facts about the fuzzy best-match fold -/

theorem zero_le_bestSim (sim : String → String → ℝ) (q : String)
    (t : Finset String) : 0 ≤ bestSim sim q t :=
  (Finset.le_fold_max _).mpr (Or.inl le_rfl)

theorem bestSim_le (sim : String → String → ℝ) (q : String)
    (t : Finset String) (c : ℝ) (hc : 0 ≤ c)
    (h : ∀ w ∈ t, sim q w ≤ c) : bestSim sim q t ≤ c :=
  (Finset.fold_max_le _).mpr ⟨hc, h⟩

theorem bestSim_eq_sup' (sim : String → String → ℝ) (q : String)
    (t : Finset String) (ht : t.Nonempty)
    (h0 : ∀ w ∈ t, 0 ≤ sim q w) :
    bestSim sim q t = t.sup' ht (sim q) := by
  apply le_antisymm
  · refine (Finset.fold_max_le _).mpr ?_
    obtain ⟨w, hw⟩ := ht
    exact ⟨Finset.le_sup'_of_le _ hw (h0 w hw), fun x hx => Finset.le_sup' _ hx⟩
  · apply Finset.sup'_le_iff _ _ |>.mpr
    intro x hx
    exact (Finset.le_fold_max _).mpr (Or.inr ⟨x, hx, le_rfl⟩)

theorem fuzzyScore_nonneg (sim : String → String → ℝ)
    (q t : Finset String) : 0 ≤ fuzzyScore sim q t := by
  unfold fuzzyScore
  split_ifs with h
  · exact le_rfl
  · apply div_nonneg
    · exact Finset.sum_nonneg fun w _ => zero_le_bestSim sim w t
    · positivity

theorem fuzzyScore_le_one (sim : String → String → ℝ)
    (hsim : ∀ a b, 0 ≤ sim a b ∧ sim a b ≤ 100)
    (q t : Finset String) : fuzzyScore sim q t ≤ 1 := by
  unfold fuzzyScore
  split_ifs with h
  · norm_num
  · push_neg at h
    have hq : q.Nonempty := Finset.nonempty_iff_ne_empty.mpr h.1
    have hcard : 0 < (q.card : ℝ) := by
      exact_mod_cast Finset.card_pos.mpr hq
    rw [div_le_one (by positivity)]
    have hsum : ∑ w ∈ q, bestSim sim w t ≤ ∑ w ∈ q, (100 : ℝ) := by
      apply Finset.sum_le_sum
      intro w _
      exact bestSim_le sim w t 100 (by norm_num) fun x _ => (hsim w x).2
    rw [Finset.sum_const, nsmul_eq_mul] at hsum
    calc ∑ w ∈ q, bestSim sim w t ≤ (q.card : ℝ) * 100 := hsum
    _ = 100 * (q.card : ℝ) := by ring

/-! ## C8: the fuzzy token score -/

/-- C8: `_fuzzy_token_score` is `0.0` when either token set is empty, always
lies in `[0, 1]` (given the RapidFuzz contract that pairwise ratios lie in
`[0, 100]`), and on non-empty sets equals the sum over the query tokens of
the best pairwise ratio against the item tokens, divided by
`100 * |query_tokens|`. -/
theorem c8_fuzzy_score_spec (sim : String → String → ℝ)
    (hsim : ∀ a b, 0 ≤ sim a b ∧ sim a b ≤ 100)
    (q t : Finset String) :
    fuzzyScore sim ∅ t = 0 ∧ fuzzyScore sim q ∅ = 0 ∧
    0 ≤ fuzzyScore sim q t ∧ fuzzyScore sim q t ≤ 1 ∧
    ∀ ht : t.Nonempty, q ≠ ∅ →
      fuzzyScore sim q t =
        (∑ w ∈ q, t.sup' ht (sim w)) / (100 * q.card) := by
  refine ⟨by simp [fuzzyScore], by simp [fuzzyScore],
    fuzzyScore_nonneg sim q t, fuzzyScore_le_one sim hsim q t, ?_⟩
  intro ht hq
  unfold fuzzyScore
  rw [if_neg (by push_neg; exact ⟨hq, Finset.nonempty_iff_ne_empty.mp ht⟩)]
  congr 1
  apply Finset.sum_congr rfl
  intro w _
  exact bestSim_eq_sup' sim w t ht fun x _ => (hsim w x).1

/-- Witness for C8 at a concrete similarity function and token sets. -/
theorem c8_witness :
    fuzzyScore (fun _ _ => 50) ∅ {"chair"} = 0 :=
  (c8_fuzzy_score_spec (fun _ _ => 50) (fun _ _ => by norm_num)
    ∅ {"chair"}).1

/-! ## C3: the per-item score formulas -/

/-- C3: each catalog item scored by `search` gets
`exact_keyword_score = |Q ∩ T| / |Q|` (`0` when `Q` is empty),
`keyword_score = max(exact, fuzzy)`, a category score computed identically
against the category-only token set, and
`combined_score = 0.3*semantic + 0.4*keyword + 0.3*category`. -/
theorem c3_score_formulas (sim : String → String → ℝ)
    (queryTokens : Finset String) (queryVec : List ℝ) (it : Item)
    (itemVec : List ℝ) :
    (scoreItem sim queryTokens queryVec it itemVec).semantic_score =
        cosineSim queryVec itemVec ∧
    (scoreItem sim queryTokens queryVec it itemVec).keyword_score =
        max (exactScore queryTokens (normalizeTokens (itemText it)))
          (fuzzyScore sim queryTokens (normalizeTokens (itemText it))) ∧
    (scoreItem sim queryTokens queryVec it itemVec).combined_score =
        0.3 * (scoreItem sim queryTokens queryVec it itemVec).semantic_score +
        0.4 * (scoreItem sim queryTokens queryVec it itemVec).keyword_score +
        0.3 * max (exactScore queryTokens (normalizeTokens it.category))
          (fuzzyScore sim queryTokens (normalizeTokens it.category)) ∧
    (∀ t : Finset String, queryTokens = ∅ → exactScore queryTokens t = 0) ∧
    (∀ t : Finset String, queryTokens ≠ ∅ →
      exactScore queryTokens t =
        ((queryTokens ∩ t).card : ℝ) / (queryTokens.card : ℝ)) := by
  refine ⟨rfl, rfl, rfl, ?_, ?_⟩
  · intro t h
    simp [exactScore, h]
  · intro t h
    simp [exactScore, h]

/-! ## Cauchy–Schwarz for the list dot product -/

theorem abs_dotList_le (a b : List ℝ) :
    |dotList a b| ≤ Real.sqrt (sumSq a) * Real.sqrt (sumSq b) := by
  induction a generalizing b with
  | nil =>
    have h1 : dotList [] b = 0 := rfl
    have h2 : sumSq ([] : List ℝ) = 0 := rfl
    rw [h1, h2, abs_zero, Real.sqrt_zero, zero_mul]
  | cons x xs ih =>
    cases b with
    | nil =>
      have h1 : dotList (x :: xs) [] = 0 := rfl
      have h2 : sumSq ([] : List ℝ) = 0 := rfl
      rw [h1, h2, abs_zero, Real.sqrt_zero, mul_zero]
    | cons y ys =>
      have hd : dotList (x :: xs) (y :: ys) = x * y + dotList xs ys := by
        simp [dotList, List.zip_cons_cons]
      have hsa : sumSq (x :: xs) = x * x + sumSq xs := by simp [sumSq]
      have hsb : sumSq (y :: ys) = y * y + sumSq ys := by simp [sumSq]
      have hA : 0 ≤ sumSq xs := sumSq_nonneg xs
      have hB : 0 ≤ sumSq ys := sumSq_nonneg ys
      have ihb := ih ys
      rw [hd, hsa, hsb]
      have key : |x * y + dotList xs ys| ≤
          |x| * |y| + Real.sqrt (sumSq xs) * Real.sqrt (sumSq ys) := by
        calc |x * y + dotList xs ys| ≤ |x * y| + |dotList xs ys| :=
              abs_add _ _
        _ ≤ |x| * |y| + Real.sqrt (sumSq xs) * Real.sqrt (sumSq ys) := by
              rw [abs_mul]; linarith [ihb]
      refine le_trans key ?_
      have h2 : 0 ≤ |x| * |y| + Real.sqrt (sumSq xs) * Real.sqrt (sumSq ys) := by
        positivity
      have hs1 : 0 ≤ x * x + sumSq xs := by nlinarith [mul_self_nonneg x]
      have hs2 : 0 ≤ y * y + sumSq ys := by nlinarith [mul_self_nonneg y]
      have e1 : Real.sqrt (sumSq xs) ^ 2 = sumSq xs := Real.sq_sqrt hA
      have e2 : Real.sqrt (sumSq ys) ^ 2 = sumSq ys := Real.sq_sqrt hB
      have e3 : |x| ^ 2 = x * x := by rw [sq_abs]; ring
      have e4 : |y| ^ 2 = y * y := by rw [sq_abs]; ring
      have hsq : (|x| * |y| + Real.sqrt (sumSq xs) * Real.sqrt (sumSq ys)) ^ 2 ≤
          (x * x + sumSq xs) * (y * y + sumSq ys) := by
        nlinarith [two_mul_le_add_sq (|x| * Real.sqrt (sumSq ys))
            (|y| * Real.sqrt (sumSq xs)),
          abs_nonneg x, abs_nonneg y, Real.sqrt_nonneg (sumSq xs),
          Real.sqrt_nonneg (sumSq ys)]
      calc |x| * |y| + Real.sqrt (sumSq xs) * Real.sqrt (sumSq ys)
          = Real.sqrt ((|x| * |y| +
              Real.sqrt (sumSq xs) * Real.sqrt (sumSq ys)) ^ 2) :=
            (Real.sqrt_sq h2).symm
        _ ≤ Real.sqrt ((x * x + sumSq xs) * (y * y + sumSq ys)) :=
            Real.sqrt_le_sqrt hsq
        _ = Real.sqrt (x * x + sumSq xs) * Real.sqrt (y * y + sumSq ys) :=
            Real.sqrt_mul hs1 _

theorem cosineSim_le_one (a b : List ℝ) : cosineSim a b ≤ 1 := by
  unfold cosineSim
  split_ifs with h1 h2
  · norm_num
  · norm_num
  · push_neg at h1 h2
    have hA' : 0 < sumSq a := lt_of_le_of_ne (sumSq_nonneg a) (Ne.symm h2.1)
    have hB' : 0 < sumSq b := lt_of_le_of_ne (sumSq_nonneg b) (Ne.symm h2.2)
    have hden : 0 < Real.sqrt (sumSq a) * Real.sqrt (sumSq b) :=
      mul_pos (Real.sqrt_pos.mpr hA') (Real.sqrt_pos.mpr hB')
    rw [div_le_one hden]
    exact le_trans (le_abs_self _) (abs_dotList_le a b)

/-! ## Bounds on the keyword scores -/

theorem exactScore_nonneg (q t : Finset String) : 0 ≤ exactScore q t := by
  unfold exactScore
  split_ifs
  · exact le_rfl
  · positivity

theorem exactScore_le_one (q t : Finset String) : exactScore q t ≤ 1 := by
  unfold exactScore
  split_ifs with h
  · norm_num
  · have hq : q.Nonempty := Finset.nonempty_iff_ne_empty.mpr h
    have hcard : 0 < (q.card : ℝ) := by
      exact_mod_cast Finset.card_pos.mpr hq
    rw [div_le_one hcard]
    exact_mod_cast Finset.card_le_card Finset.inter_subset_left

/-- The three fields of `scoreItem`, unfolded. -/
theorem scoreItem_fields (sim : String → String → ℝ)
    (queryTokens : Finset String) (queryVec : List ℝ) (it : Item)
    (itemVec : List ℝ) :
    (scoreItem sim queryTokens queryVec it itemVec).semantic_score =
        cosineSim queryVec itemVec ∧
    (scoreItem sim queryTokens queryVec it itemVec).keyword_score =
        max (exactScore queryTokens (normalizeTokens (itemText it)))
          (fuzzyScore sim queryTokens (normalizeTokens (itemText it))) ∧
    (scoreItem sim queryTokens queryVec it itemVec).combined_score =
        0.3 * cosineSim queryVec itemVec +
        0.4 * max (exactScore queryTokens (normalizeTokens (itemText it)))
          (fuzzyScore sim queryTokens (normalizeTokens (itemText it))) +
        0.3 * max (exactScore queryTokens (normalizeTokens it.category))
          (fuzzyScore sim queryTokens (normalizeTokens it.category)) :=
  ⟨rfl, rfl, rfl⟩

/-! ## Decomposing membership in the search results -/

theorem search_sublist_rank (sim : String → String → ℝ)
    (embed : List String → List (List ℝ)) (query : String)
    (items : List Item) (top_k : Option ℤ) (hq : pyStrip query ≠ "")
    (hi : items ≠ []) :
    (search sim embed query items top_k).Sublist
      (rankResults sim (normalizeTokens (pyStrip query))
        ((embed (pyStrip query :: items.map itemText)).headD [])
        items ((embed (pyStrip query :: items.map itemText)).drop 1)) := by
  cases top_k with
  | none =>
    rw [search_main_none _ _ _ _ hq hi]
  | some k =>
    rw [search_main_some _ _ _ _ _ hq hi]
    split_ifs
    · exact List.take_sublist _ _
    · exact List.Sublist.refl _

theorem rankResults_sorted (sim : String → String → ℝ)
    (queryTokens : Finset String) (queryVec : List ℝ) (items : List Item)
    (itemVecs : List (List ℝ)) :
    List.Sorted byCombinedDesc
      (rankResults sim queryTokens queryVec items itemVecs) := by
  unfold rankResults
  exact List.sorted_insertionSort byCombinedDesc _

theorem mem_search_decomp (sim : String → String → ℝ)
    (embed : List String → List (List ℝ)) (query : String)
    (items : List Item) (top_k : Option ℤ) (r : ScoredResult)
    (hr : r ∈ search sim embed query items top_k) :
    (0.3 : ℝ) < r.combined_score ∧
    ∃ it vec, r = scoreItem sim (normalizeTokens (pyStrip query))
      ((embed (pyStrip query :: items.map itemText)).headD []) it vec := by
  by_cases hq : pyStrip query = ""
  · rw [search_of_strip_empty _ _ _ _ _ hq] at hr
    simp at hr
  by_cases hi : items = []
  · subst hi
    rw [search_of_items_empty] at hr
    simp at hr
  have hr' := (search_sublist_rank _ _ _ _ _ hq hi).subset hr
  unfold rankResults at hr'
  simp only [List.mem_insertionSort] at hr'
  rw [List.mem_filter] at hr'
  obtain ⟨hmem, hdec⟩ := hr'
  rw [List.mem_map] at hmem
  obtain ⟨p, hp, rfl⟩ := hmem
  rw [decide_eq_true_eq] at hdec
  exact ⟨hdec, p.1, p.2, rfl⟩

/-! ## C1: combined scores of returned results lie in [0, 1] -/

/-- C1: every result returned by `search` has `combined_score` in `[0, 1]`
(given the RapidFuzz contract that pairwise ratios lie in `[0, 100]`), and
its combined score is the weighted sum `0.3*semantic + 0.4*keyword + 0.3*c`
for some category score `c ∈ [0, 1]`.  The lower bound comes from the `0.3`
relevance cutoff; the upper bound holds because every component is at most
`1` (for the semantic component by Cauchy–Schwarz). -/
theorem c1_combined_score_in_unit_interval (sim : String → String → ℝ)
    (embed : List String → List (List ℝ)) (query : String)
    (items : List Item) (top_k : Option ℤ)
    (hsim : ∀ a b, 0 ≤ sim a b ∧ sim a b ≤ 100) :
    ∀ r ∈ search sim embed query items top_k,
      0 ≤ r.combined_score ∧ r.combined_score ≤ 1 ∧
      ∃ c, 0 ≤ c ∧ c ≤ 1 ∧
        r.combined_score =
          0.3 * r.semantic_score + 0.4 * r.keyword_score + 0.3 * c := by
  intro r hr
  obtain ⟨hlt, it, vec, rfl⟩ := mem_search_decomp _ _ _ _ _ _ hr
  obtain ⟨hsem, hkw, hcomb⟩ := scoreItem_fields sim
    (normalizeTokens (pyStrip query))
    ((embed (pyStrip query :: items.map itemText)).headD []) it vec
  have hsem1 : cosineSim
      ((embed (pyStrip query :: items.map itemText)).headD []) vec ≤ 1 :=
    cosineSim_le_one _ _
  have hkw1 : max (exactScore (normalizeTokens (pyStrip query))
        (normalizeTokens (itemText it)))
      (fuzzyScore sim (normalizeTokens (pyStrip query))
        (normalizeTokens (itemText it))) ≤ 1 :=
    max_le (exactScore_le_one _ _) (fuzzyScore_le_one sim hsim _ _)
  have hkw0 : 0 ≤ max (exactScore (normalizeTokens (pyStrip query))
        (normalizeTokens (itemText it)))
      (fuzzyScore sim (normalizeTokens (pyStrip query))
        (normalizeTokens (itemText it))) :=
    le_trans (exactScore_nonneg _ _) (le_max_left _ _)
  have hcat1 : max (exactScore (normalizeTokens (pyStrip query))
        (normalizeTokens it.category))
      (fuzzyScore sim (normalizeTokens (pyStrip query))
        (normalizeTokens it.category)) ≤ 1 :=
    max_le (exactScore_le_one _ _) (fuzzyScore_le_one sim hsim _ _)
  have hcat0 : 0 ≤ max (exactScore (normalizeTokens (pyStrip query))
        (normalizeTokens it.category))
      (fuzzyScore sim (normalizeTokens (pyStrip query))
        (normalizeTokens it.category)) :=
    le_trans (exactScore_nonneg _ _) (le_max_left _ _)
  refine ⟨by linarith, by rw [hcomb]; linarith, ?_⟩
  refine ⟨max (exactScore (normalizeTokens (pyStrip query))
      (normalizeTokens it.category))
    (fuzzyScore sim (normalizeTokens (pyStrip query))
      (normalizeTokens it.category)), hcat0, hcat1, ?_⟩
  rw [hcomb, hsem, hkw]

/-- Witness for C1: the RapidFuzz contract hypothesis is discharged at the
constant-zero similarity function. -/
theorem c1_witness :
    (∀ a b : String, 0 ≤ (fun (_ _ : String) => (0 : ℝ)) a b ∧
      (fun (_ _ : String) => (0 : ℝ)) a b ≤ 100) ∧
    (∀ r ∈ search (fun _ _ => 0) (fun _ => [[], []])
        "chair" [⟨"1", "chair", "", ""⟩] (some 20),
      0 ≤ r.combined_score ∧ r.combined_score ≤ 1 ∧
      ∃ c, 0 ≤ c ∧ c ≤ 1 ∧
        r.combined_score =
          0.3 * r.semantic_score + 0.4 * r.keyword_score + 0.3 * c) :=
  ⟨fun _ _ => ⟨le_rfl, by norm_num⟩,
    c1_combined_score_in_unit_interval _ _ _ _ _
      (fun _ _ => ⟨le_rfl, by norm_num⟩)⟩

/-! ## C2: results are sorted non-increasing and above the cutoff -/

/-- C2: the list returned by `search` is sorted in non-increasing order of
`combined_score`, and every returned result has `combined_score > 0.3`
(strict: `0.3` itself is excluded by the filter). -/
theorem c2_sorted_and_above_cutoff (sim : String → String → ℝ)
    (embed : List String → List (List ℝ)) (query : String)
    (items : List Item) (top_k : Option ℤ) :
    List.Sorted (fun a b => b.combined_score ≤ a.combined_score)
      (search sim embed query items top_k) ∧
    ∀ r ∈ search sim embed query items top_k,
      (0.3 : ℝ) < r.combined_score := by
  constructor
  · by_cases hq : pyStrip query = ""
    · rw [search_of_strip_empty _ _ _ _ _ hq]
      exact List.sorted_nil
    by_cases hi : items = []
    · subst hi
      rw [search_of_items_empty]
      exact List.sorted_nil
    exact List.Pairwise.sublist (search_sublist_rank _ _ _ _ _ hq hi)
      (rankResults_sorted _ _ _ _ _)
  · intro r hr
    exact (mem_search_decomp _ _ _ _ _ _ hr).1

/-- Witness for C2 at concrete inputs. -/
theorem c2_witness :
    List.Sorted (fun a b => b.combined_score ≤ a.combined_score)
      (search (fun _ _ => 0) (fun _ => []) "chair" [] none) ∧
    ∀ r ∈ search (fun _ _ => 0) (fun _ => []) "chair" [] none,
      (0.3 : ℝ) < r.combined_score :=
  c2_sorted_and_above_cutoff _ _ _ _ _

/-! ## C9: the listing-endpoint word normalizer -/

theorem isSuffixOf_eq_drop (l₁ l₂ : List Char) :
    (l₁.isSuffixOf l₂) = true ↔ l₂.drop (l₂.length - l₁.length) = l₁ := by
  rw [List.isSuffixOf_iff_suffix, List.suffix_iff_eq_drop, eq_comm]

/-- C9: `normalize_word` lowercases the word; if the lowercased word has
length > 3 and its last two characters are `es` it drops them; else if it
has length > 3 and its last character is `s` it drops it; otherwise it
returns the lowercased word unchanged. -/
theorem c9_normalize_word_spec (w : String) :
    normalize_word w =
      (if 3 < (w.data.map Char.toLower).length ∧
          (w.data.map Char.toLower).drop
            ((w.data.map Char.toLower).length - 2) = ['e', 's'] then
        String.mk ((w.data.map Char.toLower).take
          ((w.data.map Char.toLower).length - 2))
      else if 3 < (w.data.map Char.toLower).length ∧
          (w.data.map Char.toLower).drop
            ((w.data.map Char.toLower).length - 1) = ['s'] then
        String.mk ((w.data.map Char.toLower).take
          ((w.data.map Char.toLower).length - 1))
      else String.mk (w.data.map Char.toLower)) := by
  simp only [normalize_word, isSuffixOf_eq_drop, List.length_cons,
    List.length_nil]

/-! ## C5: the tokenize round-trip equation

The spec asserts that
`normalize_tokens(t) == normalize_tokens(" ".join(normalize_tokens(t)))` is
NOT generally true, and it is right: at `t = "İ"` the single token
lowercases to the two-character string `i` + U+0307, and U+0307 is not a
`\w` character, so re-tokenizing the join splits that token and yields the
different set `{"i"}`. -/

theorem splitRuns_nil : splitRuns [] = [] := by simp [splitRuns]

theorem splitRuns_cons_word {c : Char} (cs : List Char)
    (h : isWordChar c = true) :
    splitRuns (c :: cs) =
      (c :: cs.takeWhile isWordChar) :: splitRuns (cs.dropWhile isWordChar) := by
  rw [splitRuns]
  rw [if_pos h]

theorem splitRuns_cons_nonword {c : Char} (cs : List Char)
    (h : ¬isWordChar c = true) : splitRuns (c :: cs) = splitRuns cs := by
  rw [splitRuns]
  rw [if_neg h]

theorem splitRuns_dotted_capital_i : splitRuns ['\u0130'] = [['\u0130']] := by
  rw [splitRuns_cons_word _ (by decide),
    show List.dropWhile isWordChar ([] : List Char) = [] from rfl,
    splitRuns_nil,
    show List.takeWhile isWordChar ([] : List Char) = [] from rfl]

theorem tokens_dotted_capital_i :
    normalizeTokens "İ" = {String.mk ['i', '\u0307']} := by
  rw [normalizeTokens, show "İ".data = ['\u0130'] from rfl,
    splitRuns_dotted_capital_i]
  decide

theorem splitRuns_i_combining : splitRuns ['i', '\u0307'] = [['i']] := by
  rw [splitRuns_cons_word _ (by decide),
    show List.takeWhile isWordChar ['\u0307'] = [] from by decide,
    show List.dropWhile isWordChar ['\u0307'] = ['\u0307'] from by decide,
    splitRuns_cons_nonword _ (by decide),
    splitRuns_nil]

theorem tokens_join_dotted :
    normalizeTokens (joinSpace [String.mk ['i', '\u0307']]) = {"i"} := by
  rw [show joinSpace [String.mk ['i', '\u0307']] =
      String.mk ['i', '\u0307'] from rfl,
    normalizeTokens,
    show (String.mk ['i', '\u0307']).data = ['i', '\u0307'] from rfl,
    splitRuns_i_combining]
  decide

/-- C5: the spec's denial of the tokenize round-trip equation is right —
there IS a text on which
`normalize_tokens(t) = normalize_tokens(" ".join(normalize_tokens(t)))`
fails, namely `t = "İ"`: its token lowercases to `i` + U+0307 (full
Unicode case mapping), and the combining mark is not a `\w` character, so
re-tokenizing the join yields `{"i"}` instead. -/
theorem c5_roundtrip_fails_for_some_text :
    ∃ t : String,
      normalizeTokens (joinSpace (normalizeTokens t).toList) ≠
        normalizeTokens t := by
  refine ⟨"İ", ?_⟩
  rw [tokens_dotted_capital_i, Finset.toList_singleton, tokens_join_dotted]
  decide

/-! ## A concrete end-to-end search scenario

One catalog item `{id: "1", name: "chair"}`, query `"chair"`, a stubbed
embedding provider returning empty vectors and the constant-zero similarity
function: the exact keyword score is `1`, every other component is `0`, so
the item is returned with `combined_score = 0.4 > 0.3`. -/

theorem splitRuns_chair : splitRuns "chair".data = [['c','h','a','i','r']] := by
  rw [show "chair".data = 'c' :: ['h','a','i','r'] from rfl,
    splitRuns_cons_word _ (by decide),
    show List.dropWhile isWordChar ['h','a','i','r'] = [] from by decide,
    splitRuns_nil,
    show List.takeWhile isWordChar ['h','a','i','r'] = ['h','a','i','r'] from
      by decide]

theorem tokens_chair : normalizeTokens "chair" = {"chair"} := by
  rw [normalizeTokens, splitRuns_chair]
  decide

theorem splitRuns_one_chair :
    splitRuns "1 chair".data = [['1'], ['c','h','a','i','r']] := by
  rw [show "1 chair".data = '1' :: (' ' :: ['c','h','a','i','r']) from rfl,
    splitRuns_cons_word _ (by decide),
    show List.takeWhile isWordChar (' ' :: ['c','h','a','i','r']) = [] from
      by decide,
    show List.dropWhile isWordChar (' ' :: ['c','h','a','i','r']) =
      ' ' :: ['c','h','a','i','r'] from by decide,
    splitRuns_cons_nonword _ (by decide),
    splitRuns_cons_word _ (by decide),
    show List.dropWhile isWordChar ['h','a','i','r'] = [] from by decide,
    splitRuns_nil,
    show List.takeWhile isWordChar ['h','a','i','r'] = ['h','a','i','r'] from
      by decide]

theorem tokens_one_chair : normalizeTokens "1 chair" = {"1", "chair"} := by
  rw [normalizeTokens, splitRuns_one_chair]
  decide

theorem tokens_empty_string : normalizeTokens "" = ∅ := by
  rw [normalizeTokens, show "".data = [] from rfl, splitRuns_nil]
  rfl

theorem bestSim_const_zero (q : String) (t : Finset String) :
    bestSim (fun _ _ => 0) q t = 0 :=
  le_antisymm (bestSim_le _ _ _ 0 le_rfl fun _ _ => le_rfl)
    (zero_le_bestSim _ _ _)

theorem fuzzyScore_const_zero (q t : Finset String) :
    fuzzyScore (fun _ _ => 0) q t = 0 := by
  unfold fuzzyScore
  split_ifs with h
  · rfl
  · rw [Finset.sum_congr rfl fun w _ => bestSim_const_zero w t,
      Finset.sum_const, smul_zero, zero_div]

theorem scoreItem_concrete :
    scoreItem (fun _ _ => 0) {"chair"} [] ⟨"1", "chair", "", ""⟩ [] =
      ⟨⟨"1", "chair", "", ""⟩, 0, 1, 0.4⟩ := by
  have htext : itemText ⟨"1", "chair", "", ""⟩ = "1 chair" := by decide
  have hsem : cosineSim [] [] = 0 :=
    cosineSim_guard_zero _ _ (Or.inl rfl)
  have hexact : exactScore {"chair"} {"1", "chair"} = 1 := by
    rw [exactScore, if_neg (by decide),
      show ({"chair"} : Finset String) ∩ {"1", "chair"} = {"chair"} from
        by decide]
    norm_num
  have hexactcat : exactScore {"chair"} (∅ : Finset String) = 0 := by
    rw [exactScore, if_neg (by decide)]
    simp
  unfold scoreItem
  rw [htext, tokens_one_chair, tokens_empty_string]
  simp only [hsem, hexact, hexactcat, fuzzyScore_const_zero]
  congr 1
  · rw [max_eq_left (by norm_num)]
  · rw [max_eq_left (by norm_num), max_eq_left le_rfl]
    norm_num

theorem search_concrete_scenario :
    search (fun _ _ => 0) (fun _ => [[], []]) "chair"
      [⟨"1", "chair", "", ""⟩] (some 20) =
      [⟨⟨"1", "chair", "", ""⟩, 0, 1, 0.4⟩] := by
  have hstrip : pyStrip "chair" = "chair" := by decide
  rw [search_main_some _ _ _ _ _ (by decide) (by simp), if_pos (by norm_num)]
  rw [hstrip, tokens_chair]
  unfold rankResults
  rw [show ([⟨"1", "chair", "", ""⟩] : List Item).zip
      (((fun _ => [[], []]) ("chair" ::
        [(⟨"1", "chair", "", ""⟩ : Item)].map itemText) : List (List ℝ)).drop 1) =
      [((⟨"1", "chair", "", ""⟩ : Item), ([] : List ℝ))] from rfl]
  rw [List.map_singleton]
  rw [show ((fun _ => [[], []]) ("chair" ::
      [(⟨"1", "chair", "", ""⟩ : Item)].map itemText) :
        List (List ℝ)).headD [] = ([] : List ℝ) from rfl]
  rw [scoreItem_concrete]
  rw [List.filter_cons_of_pos (by
    exact decide_eq_true (by norm_num))]
  simp [List.insertionSort]
